import Mathlib

/-!
Shallow embedding of the VGA text-buffer driver in `src/vga_buffer.rs`.

The hardware text buffer is a fixed 25×80 grid of cells, each holding a
character byte and an attribute (color) byte.  The `Writer` owns a column
cursor and a current attribute and mutates the grid cell by cell; all
writes target the last row, and vertical movement happens only by scrolling
the whole grid up one row.  Machine integers (`u8`, `usize`) are modelled
as `Nat`; the grid is modelled as a total function from row/column indices
to cells, updated pointwise, and the source's row-copy / row-clear loops
are modelled as left folds over the same index ranges the Rust `for` loops
iterate over.
-/

namespace VgaBuffer

/-- The 16 hardware color indices (`enum Color` in the source). -/
inductive Color
  | Black | Blue | Green | Cyan | Red | Magenta | Brown | LightGrey
  | DarkGrey | LightBlue | LightGreen | LightCyan | LightRed | Pink
  | Yellow | White
deriving DecidableEq, Repr

/-- The `#[repr(u8)]` discriminant of each color. -/
def Color.toNat : Color → Nat
  | .Black => 0 | .Blue => 1 | .Green => 2 | .Cyan => 3
  | .Red => 4 | .Magenta => 5 | .Brown => 6 | .LightGrey => 7
  | .DarkGrey => 8 | .LightBlue => 9 | .LightGreen => 10 | .LightCyan => 11
  | .LightRed => 12 | .Pink => 13 | .Yellow => 14 | .White => 15

/-- A packed attribute byte (`struct ColorCode(u8)`). -/
abbrev ColorCode := Nat

/-- `ColorCode::new`: `(background as u8) << 4 | (foreground as u8)`. -/
def ColorCode.new (foreground background : Color) : ColorCode :=
  Nat.lor (Nat.shiftLeft background.toNat 4) foreground.toNat

/-- One display cell (`struct ScreenChar`): character byte plus attribute. -/
structure ScreenChar where
  ascii_char : Nat
  color_code : ColorCode
deriving DecidableEq, Repr

def BUFFER_HEIGHT : Nat := 25
def BUFFER_WIDTH : Nat := 80
def INDENT_SIZE : Nat := 4

/-- The screen buffer, modelled as a total function on row/column indices.
The source only ever accesses `row < BUFFER_HEIGHT`, `col < BUFFER_WIDTH`. -/
abbrev Grid := Nat → Nat → ScreenChar

/-- A single volatile cell write: pointwise update of the grid. -/
def bufWrite (buf : Grid) (row col : Nat) (ch : ScreenChar) : Grid :=
  fun r c => if r = row ∧ c = col then ch else buf r c

/-- The writer state (`struct Writer`): cursor column, current attribute,
and the owned screen buffer. -/
structure Writer where
  column_pos : Nat
  color_code : ColorCode
  buffer : Grid

/-- The column-copy loop body of `new_line`: for each `col` in `cols`,
read `chars[row][col]` and write it to `chars[row - 1][col]`. -/
def copyRow (buf : Grid) (row : Nat) (cols : List Nat) : Grid :=
  cols.foldl (fun acc col => bufWrite acc (row - 1) col (acc row col)) buf

/-- The row loop of `new_line`: `for row in rows`, copy row `row` up. -/
def copyRows (buf : Grid) (rows : List Nat) : Grid :=
  rows.foldl (fun acc row => copyRow acc row (List.range BUFFER_WIDTH)) buf

/-- The loop body of `clear_row`: write `blank` at `(row, col)` for each
`col` in `cols`. -/
def clearCols (buf : Grid) (blank : ScreenChar) (row : Nat) (cols : List Nat) :
    Grid :=
  cols.foldl (fun acc col => bufWrite acc row col blank) buf

/-- `Writer::clear_row`: fill row `row` with blank cells (space character,
current attribute). -/
def clear_row (w : Writer) (row : Nat) : Writer :=
  { w with
    buffer :=
      clearCols w.buffer
        { ascii_char := 0x20, color_code := w.color_code }
        row (List.range BUFFER_WIDTH) }

/-- `Writer::new_line`: copy every cell of rows `[1, BUFFER_HEIGHT)` one row
up, clear the last row, and reset the column to 0. -/
def new_line (w : Writer) : Writer :=
  let w1 : Writer :=
    { w with
      buffer := copyRows w.buffer (List.range' 1 (BUFFER_HEIGHT - 1)) }
  let w2 := clear_row w1 (BUFFER_HEIGHT - 1)
  { w2 with column_pos := 0 }

/-- `Writer::indent`: advance the column to the next multiple of
`INDENT_SIZE`, clamping to `BUFFER_WIDTH - 1` near the right margin. -/
def indent (w : Writer) : Writer :=
  { w with
    column_pos :=
      if w.column_pos < BUFFER_WIDTH - INDENT_SIZE then
        (w.column_pos / INDENT_SIZE + 1) * INDENT_SIZE
      else
        BUFFER_WIDTH - 1 }

/-- `Writer::write_byte`: newline scrolls, tab indents, any other byte is
stored at `(BUFFER_HEIGHT - 1, column_pos)` (after an implicit scroll when
the column has reached `BUFFER_WIDTH`) and the column advances. -/
def write_byte (w : Writer) (byte : Nat) : Writer :=
  if byte = 10 then new_line w
  else if byte = 9 then indent w
  else
    let w1 := if BUFFER_WIDTH ≤ w.column_pos then new_line w else w
    let row := BUFFER_HEIGHT - 1
    let col := w1.column_pos
    { w1 with
      buffer :=
        bufWrite w1.buffer row col
          { ascii_char := byte, color_code := w1.color_code },
      column_pos := w1.column_pos + 1 }

/-- `Writer::write_string`: dispatch printable ASCII, newline and tab bytes
unchanged to `write_byte`; substitute `0xfe` for every other byte. -/
def write_string (w : Writer) (s : List Nat) : Writer :=
  s.foldl
    (fun acc byte =>
      if (0x20 ≤ byte ∧ byte ≤ 0x7e) ∨ byte = 10 ∨ byte = 9 then
        write_byte acc byte
      else
        write_byte acc 0xfe)
    w

/-- `Writer::set_color`: replace the current attribute. -/
def set_color (w : Writer) (color_code : ColorCode) : Writer :=
  { w with color_code := color_code }

/-- `fmt::Write::write_char` for `Writer`: truncate the char to its low
byte (`c as u8`) and hand it to `write_byte` unchanged. -/
def write_char (w : Writer) (c : Char) : Writer :=
  write_byte w (c.toNat % 256)

/-- `fmt::Write::write_str` for `Writer`: delegate to `write_string` on the
bytes of the string. -/
def write_str (w : Writer) (s : List Nat) : Writer :=
  write_string w s

/-- `_print_panic`, run sequentially with no concurrent writer: remember
the current attribute, switch to light-red on black, write the formatted
text, and restore the original attribute. -/
def print_panic (w : Writer) (args : List Nat) : Writer :=
  let orig_color := w.color_code
  let panic_color := ColorCode.new Color.LightRed Color.Black
  let w1 := set_color w panic_color
  let w2 := write_string w1 args
  set_color w2 orig_color

/-- Writing a list of bytes one after the other through `write_byte`. -/
def writeBytes (w : Writer) (bs : List Nat) : Writer :=
  bs.foldl write_byte w

/-- The byte actually dispatched to `write_byte` by `write_string` for an
input byte: unchanged when printable ASCII, newline or tab, else `0xfe`. -/
def substituted (byte : Nat) : Nat :=
  if (0x20 ≤ byte ∧ byte ≤ 0x7e) ∨ byte = 10 ∨ byte = 9 then byte else 0xfe

/-- `write_byte` instrumented with a ghost counter of how many times
`new_line` (a scroll-up) is invoked; the writer component behaves exactly
like `write_byte`. -/
def write_byte_count (w : Writer) (count : Nat) (byte : Nat) : Writer × Nat :=
  if byte = 10 then (new_line w, count + 1)
  else if byte = 9 then (indent w, count)
  else
    let p := if BUFFER_WIDTH ≤ w.column_pos then (new_line w, count + 1)
             else (w, count)
    let w1 := p.1
    ({ w1 with
       buffer :=
         bufWrite w1.buffer (BUFFER_HEIGHT - 1) w1.column_pos
           { ascii_char := byte, color_code := w1.color_code },
       column_pos := w1.column_pos + 1 },
     p.2)

/-- Writing a list of bytes through the instrumented `write_byte_count`. -/
def writeBytesCount (w : Writer) (count : Nat) (bs : List Nat) : Writer × Nat :=
  bs.foldl (fun p b => write_byte_count p.1 p.2 b) (w, count)

/-- A sample concrete grid used only for instantiating theorems: each cell
records its own row-major index. -/
def demoGrid : Grid :=
  fun r c => { ascii_char := r * BUFFER_WIDTH + c, color_code := 0x07 }

/-- A sample concrete writer matching the initial `WRITER` state: column 0,
light-grey on black. -/
def demoWriter : Writer :=
  { column_pos := 0
    color_code := ColorCode.new Color.LightGrey Color.Black
    buffer := demoGrid }

/-! ## Basic lemmas about the embedded operations -/

theorem bufWrite_apply (buf : Grid) (row col : Nat) (ch : ScreenChar)
    (r c : Nat) :
    bufWrite buf row col ch r c = if r = row ∧ c = col then ch else buf r c :=
  rfl

theorem new_line_column (w : Writer) : (new_line w).column_pos = 0 := rfl

theorem new_line_color (w : Writer) : (new_line w).color_code = w.color_code :=
  rfl

theorem indent_color (w : Writer) : (indent w).color_code = w.color_code := rfl

theorem indent_buffer (w : Writer) : (indent w).buffer = w.buffer := rfl

theorem write_byte_color (w : Writer) (b : Nat) :
    (write_byte w b).color_code = w.color_code := by
  unfold write_byte
  split_ifs <;> rfl

theorem write_string_color (s : List Nat) :
    ∀ w : Writer, (write_string w s).color_code = w.color_code := by
  induction s with
  | nil => intro w; rfl
  | cons b rest ih =>
    intro w
    show (write_string
        (if (0x20 ≤ b ∧ b ≤ 0x7e) ∨ b = 10 ∨ b = 9 then write_byte w b
         else write_byte w 0xfe) rest).color_code = w.color_code
    rw [ih]
    split_ifs <;> exact write_byte_color w _

/-- The cell-store behavior of `write_byte` for a byte that is neither
newline nor tab, when the column is still inside the row. -/
theorem write_byte_store (w : Writer) (b : Nat) (hb10 : b ≠ 10) (hb9 : b ≠ 9)
    (hc : w.column_pos < BUFFER_WIDTH) :
    (write_byte w b).buffer (BUFFER_HEIGHT - 1) w.column_pos =
      { ascii_char := b, color_code := w.color_code } ∧
    (write_byte w b).column_pos = w.column_pos + 1 := by
  unfold write_byte
  rw [if_neg hb10, if_neg hb9]
  have hno : ¬ BUFFER_WIDTH ≤ w.column_pos := by omega
  rw [if_neg hno]
  refine ⟨?_, rfl⟩
  show bufWrite w.buffer (BUFFER_HEIGHT - 1) w.column_pos
      { ascii_char := b, color_code := w.color_code }
      (BUFFER_HEIGHT - 1) w.column_pos = _
  rw [bufWrite_apply, if_pos ⟨rfl, rfl⟩]

theorem indent_column_le (w : Writer) :
    (indent w).column_pos ≤ BUFFER_WIDTH - 1 := by
  unfold indent
  show (if w.column_pos < BUFFER_WIDTH - INDENT_SIZE then
      (w.column_pos / INDENT_SIZE + 1) * INDENT_SIZE
    else BUFFER_WIDTH - 1) ≤ BUFFER_WIDTH - 1
  unfold BUFFER_WIDTH INDENT_SIZE
  split_ifs with h
  · omega
  · omega

theorem write_byte_column_le (w : Writer) (b : Nat) :
    (write_byte w b).column_pos ≤ BUFFER_WIDTH := by
  unfold write_byte
  split_ifs with h10 h9 hw
  · rw [new_line_column]; unfold BUFFER_WIDTH; omega
  · have := indent_column_le w
    unfold BUFFER_WIDTH at *; omega
  · show (new_line w).column_pos + 1 ≤ BUFFER_WIDTH
    rw [new_line_column]; unfold BUFFER_WIDTH; omega
  · show w.column_pos + 1 ≤ BUFFER_WIDTH
    unfold BUFFER_WIDTH at *; omega

theorem write_string_column_le (s : List Nat) :
    ∀ w : Writer, w.column_pos ≤ BUFFER_WIDTH →
      (write_string w s).column_pos ≤ BUFFER_WIDTH := by
  induction s with
  | nil => intro w h; exact h
  | cons b rest ih =>
    intro w _
    show (write_string
        (if (0x20 ≤ b ∧ b ≤ 0x7e) ∨ b = 10 ∨ b = 9 then write_byte w b
         else write_byte w 0xfe) rest).column_pos ≤ BUFFER_WIDTH
    split_ifs <;> exact ih _ (write_byte_column_le _ _)

/-! ## Characterizing the scroll-up loops -/

theorem copyRow_apply (row : Nat) (hrow : 1 ≤ row) :
    ∀ (cols : List Nat) (buf : Grid) (r c : Nat),
      copyRow buf row cols r c =
        if r + 1 = row ∧ c ∈ cols then buf row c else buf r c := by
  intro cols
  induction cols with
  | nil =>
    intro buf r c
    simp [copyRow]
  | cons col rest ih =>
    intro buf r c
    have hstep : copyRow buf row (col :: rest) =
        copyRow (bufWrite buf (row - 1) col (buf row col)) row rest := rfl
    rw [hstep, ih]
    have hne : ¬(row = row - 1) := by omega
    by_cases hr : r + 1 = row
    · have hr1 : r = row - 1 := by omega
      by_cases hm : c ∈ rest
      · rw [if_pos ⟨hr, hm⟩, if_pos ⟨hr, List.mem_cons_of_mem col hm⟩,
          bufWrite_apply, if_neg]
        intro hcontra
        exact hne hcontra.1
      · rw [if_neg (fun hcontra => hm hcontra.2), bufWrite_apply]
        by_cases hcc : c = col
        · subst hcc
          rw [if_pos ⟨hr1, rfl⟩, if_pos ⟨hr, List.mem_cons_self c rest⟩]
        · rw [if_neg (fun hcontra => hcc hcontra.2), if_neg]
          intro hcontra
          rcases List.mem_cons.mp hcontra.2 with h1 | h2
          · exact hcc h1
          · exact hm h2
    · rw [if_neg (fun hcontra => hr hcontra.1),
        if_neg (fun hcontra => hr hcontra.1), bufWrite_apply, if_neg]
      intro hcontra
      omega


theorem copyRows_apply :
    ∀ (n a : Nat), 1 ≤ a → ∀ (buf : Grid) (r c : Nat),
      copyRows buf (List.range' a n) r c =
        if a ≤ r + 1 ∧ r + 1 < a + n ∧ c < BUFFER_WIDTH then buf (r + 1) c
        else buf r c := by
  intro n
  induction n with
  | zero =>
    intro a ha buf r c
    rw [if_neg (by omega)]
    rfl
  | succ n ih =>
    intro a ha buf r c
    have hstep : copyRows buf (List.range' a (n + 1)) =
        copyRows (copyRow buf a (List.range BUFFER_WIDTH))
          (List.range' (a + 1) n) := rfl
    rw [hstep, ih (a + 1) (by omega)]
    have hrw : ∀ x y : Nat,
        copyRow buf a (List.range BUFFER_WIDTH) x y =
          if x + 1 = a ∧ y < BUFFER_WIDTH then buf a y else buf x y := by
      intro x y
      rw [copyRow_apply a ha]
      by_cases hm : y < BUFFER_WIDTH
      · simp [List.mem_range, hm]
      · simp [List.mem_range, hm]
    rw [hrw, hrw]
    by_cases hc : c < BUFFER_WIDTH
    · by_cases h1 : a + 1 ≤ r + 1 ∧ r + 1 < a + 1 + n
      · rw [if_pos ⟨h1.1, h1.2, hc⟩, if_neg (by omega),
          if_pos ⟨by omega, by omega, hc⟩]
      · rw [if_neg (by omega)]
        by_cases h2 : r + 1 = a
        · rw [if_pos ⟨h2, hc⟩, if_pos ⟨by omega, by omega, hc⟩]
          congr 1
          omega
        · rw [if_neg (by omega), if_neg (by omega)]
    · rw [if_neg (by omega), if_neg (by omega), if_neg (by omega)]

theorem clearCols_apply (blank : ScreenChar) (row : Nat) :
    ∀ (cols : List Nat) (buf : Grid) (r c : Nat),
      clearCols buf blank row cols r c =
        if r = row ∧ c ∈ cols then blank else buf r c := by
  intro cols
  induction cols with
  | nil =>
    intro buf r c
    simp [clearCols]
  | cons col rest ih =>
    intro buf r c
    have hstep : clearCols buf blank row (col :: rest) =
        clearCols (bufWrite buf row col blank) blank row rest := rfl
    rw [hstep, ih, bufWrite_apply]
    by_cases hr : r = row
    · by_cases hm : c ∈ rest
      · rw [if_pos ⟨hr, hm⟩, if_pos ⟨hr, List.mem_cons_of_mem col hm⟩]
      · rw [if_neg (fun hcontra => hm hcontra.2)]
        by_cases hcc : c = col
        · subst hcc
          rw [if_pos ⟨hr, rfl⟩, if_pos ⟨hr, List.mem_cons_self c rest⟩]
        · rw [if_neg (fun hcontra => hcc hcontra.2), if_neg]
          intro hcontra
          rcases List.mem_cons.mp hcontra.2 with h1 | h2
          · exact hcc h1
          · exact hm h2
    · rw [if_neg (fun hcontra => hr hcontra.1),
        if_neg (fun hcontra => hr hcontra.1),
        if_neg (fun hcontra => hr hcontra.1)]

theorem new_line_eq (w : Writer) :
    new_line w =
      { clear_row
          { w with
            buffer := copyRows w.buffer (List.range' 1 (BUFFER_HEIGHT - 1)) }
          (BUFFER_HEIGHT - 1) with
        column_pos := 0 } :=
  rfl

theorem clear_row_buffer (w : Writer) (row r c : Nat) :
    (clear_row w row).buffer r c =
      if r = row ∧ c < BUFFER_WIDTH then
        { ascii_char := 0x20, color_code := w.color_code }
      else w.buffer r c := by
  have h : (clear_row w row).buffer =
      clearCols w.buffer { ascii_char := 0x20, color_code := w.color_code }
        row (List.range BUFFER_WIDTH) := rfl
  rw [h, clearCols_apply]
  by_cases hc : c < BUFFER_WIDTH
  · simp [List.mem_range, hc]
  · simp [List.mem_range, hc]

/-- Full cell-level characterization of `new_line`: rows `0 ≤ r ≤ 23` take
the contents of row `r + 1`, the last row becomes blank in the current
attribute, and rows beyond the grid are untouched. -/
theorem new_line_buffer (w : Writer) (r c : Nat) (hc : c < BUFFER_WIDTH) :
    (new_line w).buffer r c =
      if r = BUFFER_HEIGHT - 1 then
        { ascii_char := 0x20, color_code := w.color_code }
      else if r + 1 < BUFFER_HEIGHT then w.buffer (r + 1) c
      else w.buffer r c := by
  rw [new_line_eq w]
  show (clear_row
      { w with
        buffer := copyRows w.buffer (List.range' 1 (BUFFER_HEIGHT - 1)) }
      (BUFFER_HEIGHT - 1)).buffer r c = _
  rw [clear_row_buffer]
  dsimp only
  rw [copyRows_apply (BUFFER_HEIGHT - 1) 1 (by norm_num)]
  by_cases hr : r = BUFFER_HEIGHT - 1
  · rw [if_pos ⟨hr, hc⟩, if_pos hr]
  · rw [if_neg (fun hcontra => hr hcontra.1), if_neg hr]
    by_cases h2 : r + 1 < BUFFER_HEIGHT
    · rw [if_pos ⟨by omega, by unfold BUFFER_HEIGHT at *; omega, hc⟩,
        if_pos h2]
    · rw [if_neg (by unfold BUFFER_HEIGHT at *; omega), if_neg h2]

/-! ## Claim theorems -/

theorem indent_column_eq (w : Writer) :
    (indent w).column_pos =
      if w.column_pos < BUFFER_WIDTH - INDENT_SIZE then
        (w.column_pos / INDENT_SIZE + 1) * INDENT_SIZE
      else BUFFER_WIDTH - 1 :=
  rfl

/-- Claim C1, counterexample: at column 72 the next tab stop is 76, which
is at (hence at-or-beyond) `BUFFER_WIDTH - INDENT_SIZE`, yet `indent` moves
the column to 76, not to `BUFFER_WIDTH - 1 = 79` as the claim requires. -/
theorem indent_tabstop_at_76_not_clamped :
    BUFFER_WIDTH - INDENT_SIZE ≤ (72 / INDENT_SIZE + 1) * INDENT_SIZE ∧
    (indent { demoWriter with column_pos := 72 }).column_pos = 76 ∧
    (76 : Nat) ≠ BUFFER_WIDTH - 1 := by
  decide

/-- Claim C1 (amended): if the next tab stop would land strictly beyond
`BUFFER_WIDTH - INDENT_SIZE` (equivalently, the current column is already
at or beyond `BUFFER_WIDTH - INDENT_SIZE = 76`), then `indent` sets the
column to `BUFFER_WIDTH - 1 = 79` instead, and it neither writes any cell
nor triggers a scroll (the buffer is untouched and the column is not reset
to 0). -/
theorem indent_clamps_when_tabstop_beyond_76 (w : Writer)
    (h : BUFFER_WIDTH - INDENT_SIZE <
      (w.column_pos / INDENT_SIZE + 1) * INDENT_SIZE) :
    (indent w).column_pos = BUFFER_WIDTH - 1 ∧
    (indent w).buffer = w.buffer ∧
    (indent w).color_code = w.color_code := by
  have hge : ¬ (w.column_pos < BUFFER_WIDTH - INDENT_SIZE) := by
    simp only [BUFFER_WIDTH, INDENT_SIZE] at h ⊢
    omega
  rw [indent_column_eq, if_neg hge]
  exact ⟨rfl, rfl, rfl⟩

/-- Witness for the amended claim C1 at the concrete column 77. -/
theorem indent_clamps_when_tabstop_beyond_76_witness :
    (BUFFER_WIDTH - INDENT_SIZE <
      (({ demoWriter with column_pos := 77 } : Writer).column_pos
          / INDENT_SIZE + 1) * INDENT_SIZE) ∧
    ((indent { demoWriter with column_pos := 77 }).column_pos =
        BUFFER_WIDTH - 1 ∧
      (indent { demoWriter with column_pos := 77 }).buffer =
        ({ demoWriter with column_pos := 77 } : Writer).buffer ∧
      (indent { demoWriter with column_pos := 77 }).color_code =
        ({ demoWriter with column_pos := 77 } : Writer).color_code) :=
  ⟨by decide,
   indent_clamps_when_tabstop_beyond_76 { demoWriter with column_pos := 77 }
     (by decide)⟩

/-- Claim C2: for every printable ASCII byte and every writer whose column
is inside the row, `write_byte` stores the byte with the current attribute
at `(BUFFER_HEIGHT - 1, column_pos)` and advances the column by one. -/
theorem write_byte_printable_stores_cell (w : Writer) (b : Nat)
    (hb1 : 0x20 ≤ b) (hb2 : b ≤ 0x7e) (hc : w.column_pos < BUFFER_WIDTH) :
    (write_byte w b).buffer (BUFFER_HEIGHT - 1) w.column_pos =
      { ascii_char := b, color_code := w.color_code } ∧
    (write_byte w b).column_pos = w.column_pos + 1 :=
  write_byte_store w b (by omega) (by omega) hc

/-- Witness for claim C2 at byte `A` (0x41) and the initial writer. -/
theorem write_byte_printable_stores_cell_witness :
    (0x20 ≤ 0x41 ∧ (0x41 : Nat) ≤ 0x7e ∧
      demoWriter.column_pos < BUFFER_WIDTH) ∧
    ((write_byte demoWriter 0x41).buffer (BUFFER_HEIGHT - 1)
        demoWriter.column_pos =
      { ascii_char := 0x41, color_code := demoWriter.color_code } ∧
    (write_byte demoWriter 0x41).column_pos = demoWriter.column_pos + 1) :=
  ⟨⟨by decide, by decide, by decide⟩,
   write_byte_printable_stores_cell demoWriter 0x41 (by decide) (by decide)
     (by decide)⟩

/-- Claim C4: immediately after `new_line` completes, every row
`r ≤ BUFFER_HEIGHT - 2` holds the pre-scroll contents of row `r + 1`, the
last row is entirely blank (space character with the writer's current
attribute), and the column is 0. -/
theorem new_line_scrolls_and_blanks_last_row (w : Writer) :
    (∀ r c, r ≤ BUFFER_HEIGHT - 2 → c < BUFFER_WIDTH →
        (new_line w).buffer r c = w.buffer (r + 1) c) ∧
    (∀ c, c < BUFFER_WIDTH →
        (new_line w).buffer (BUFFER_HEIGHT - 1) c =
          { ascii_char := 0x20, color_code := w.color_code }) ∧
    (new_line w).column_pos = 0 := by
  refine ⟨?_, ?_, rfl⟩
  · intro r c hr hc
    rw [new_line_buffer w r c hc,
      if_neg (by unfold BUFFER_HEIGHT at *; omega),
      if_pos (by unfold BUFFER_HEIGHT at *; omega)]
  · intro c hc
    rw [new_line_buffer w _ c hc, if_pos rfl]

/-- Witness for claim C4 at the sample writer, checked at cells `(3, 5)`
and `(BUFFER_HEIGHT - 1, 7)`. -/
theorem new_line_scrolls_and_blanks_last_row_witness :
    (3 ≤ BUFFER_HEIGHT - 2 ∧ 5 < BUFFER_WIDTH ∧
      (new_line demoWriter).buffer 3 5 = demoWriter.buffer 4 5) ∧
    (7 < BUFFER_WIDTH ∧
      (new_line demoWriter).buffer (BUFFER_HEIGHT - 1) 7 =
        { ascii_char := 0x20, color_code := demoWriter.color_code }) ∧
    (new_line demoWriter).column_pos = 0 :=
  ⟨⟨by decide, by decide,
    (new_line_scrolls_and_blanks_last_row demoWriter).1 3 5 (by decide)
      (by decide)⟩,
   ⟨by decide,
    (new_line_scrolls_and_blanks_last_row demoWriter).2.1 7 (by decide)⟩,
   (new_line_scrolls_and_blanks_last_row demoWriter).2.2⟩

/-- Claim C7: from any column strictly below `BUFFER_WIDTH - INDENT_SIZE`,
`indent` moves the column to the smallest multiple of `INDENT_SIZE = 4`
strictly greater than the current column, and writes no cell. -/
theorem indent_next_tab_stop (w : Writer)
    (h : w.column_pos < BUFFER_WIDTH - INDENT_SIZE) :
    (indent w).column_pos % INDENT_SIZE = 0 ∧
    w.column_pos < (indent w).column_pos ∧
    (∀ m, m % INDENT_SIZE = 0 → w.column_pos < m →
      (indent w).column_pos ≤ m) ∧
    (indent w).buffer = w.buffer := by
  rw [indent_column_eq, if_pos h]
  simp only [BUFFER_WIDTH, INDENT_SIZE] at h ⊢
  exact ⟨by omega, by omega, fun m hm hlt => by omega, rfl⟩

/-- Witness for claim C7 at the concrete column 5 (tab stop 8). -/
theorem indent_next_tab_stop_witness :
    (({ demoWriter with column_pos := 5 } : Writer).column_pos <
      BUFFER_WIDTH - INDENT_SIZE) ∧
    ((indent { demoWriter with column_pos := 5 }).column_pos % INDENT_SIZE
        = 0 ∧
      ({ demoWriter with column_pos := 5 } : Writer).column_pos <
        (indent { demoWriter with column_pos := 5 }).column_pos ∧
      (∀ m, m % INDENT_SIZE = 0 →
        ({ demoWriter with column_pos := 5 } : Writer).column_pos < m →
        (indent { demoWriter with column_pos := 5 }).column_pos ≤ m) ∧
      (indent { demoWriter with column_pos := 5 }).buffer =
        ({ demoWriter with column_pos := 5 } : Writer).buffer) :=
  ⟨by decide,
   indent_next_tab_stop { demoWriter with column_pos := 5 } (by decide)⟩

/-! ## Instrumented writes: counting scrolls -/

theorem write_byte_count_fst (w : Writer) (k b : Nat) :
    (write_byte_count w k b).1 = write_byte w b := by
  unfold write_byte_count write_byte
  split_ifs <;> rfl

theorem writeBytesCount_cons (w : Writer) (k b : Nat) (rest : List Nat) :
    writeBytesCount w k (b :: rest) =
      writeBytesCount (write_byte_count w k b).1 (write_byte_count w k b).2
        rest :=
  rfl

theorem writeBytesCount_fst :
    ∀ (bs : List Nat) (w : Writer) (k : Nat),
      (writeBytesCount w k bs).1 = writeBytes w bs := by
  intro bs
  induction bs with
  | nil => intro w k; rfl
  | cons b rest ih =>
    intro w k
    rw [writeBytesCount_cons, ih, write_byte_count_fst]
    rfl

theorem writeBytesCount_printable_no_scroll :
    ∀ (bs : List Nat) (w : Writer) (k : Nat),
      (∀ b ∈ bs, 0x20 ≤ b ∧ b ≤ 0x7e) →
      w.column_pos + bs.length ≤ BUFFER_WIDTH →
      (writeBytesCount w k bs).2 = k ∧
      (writeBytesCount w k bs).1.column_pos = w.column_pos + bs.length ∧
      (writeBytesCount w k bs).1.color_code = w.color_code := by
  intro bs
  induction bs with
  | nil => intro w k _ _; exact ⟨rfl, rfl, rfl⟩
  | cons b rest ih =>
    intro w k hall hlen
    have hb := hall b (List.mem_cons_self b rest)
    have hlen1 : w.column_pos + (rest.length + 1) ≤ BUFFER_WIDTH := by
      simpa [List.length_cons] using hlen
    have hstep : write_byte_count w k b =
        ({ w with
           buffer :=
             bufWrite w.buffer (BUFFER_HEIGHT - 1) w.column_pos
               { ascii_char := b, color_code := w.color_code },
           column_pos := w.column_pos + 1 }, k) := by
      unfold write_byte_count
      rw [if_neg (by omega), if_neg (by omega), if_neg (by omega)]
    rw [writeBytesCount_cons, hstep]
    obtain ⟨h1, h2, h3⟩ :=
      ih { w with
            buffer :=
              bufWrite w.buffer (BUFFER_HEIGHT - 1) w.column_pos
                { ascii_char := b, color_code := w.color_code },
            column_pos := w.column_pos + 1 } k
        (fun x hx => hall x (List.mem_cons_of_mem b hx))
        (by show w.column_pos + 1 + rest.length ≤ BUFFER_WIDTH; omega)
    refine ⟨h1, ?_, h3⟩
    rw [h2]
    show w.column_pos + 1 + rest.length = w.column_pos + (b :: rest).length
    simp [List.length_cons]
    omega

/-- Claim C3: starting at column 0 with any `BUFFER_WIDTH` printable bytes
followed by one more printable byte, the instrumented byte writer performs
exactly one scroll, ends at column 1, stores the last byte at column 0 of
the last row, and agrees with the plain `write_byte` fold. -/
theorem write_width_succ_bytes_single_scroll (w : Writer)
    (first : List Nat) (b : Nat)
    (hw : w.column_pos = 0)
    (hlen : first.length = BUFFER_WIDTH)
    (hall : ∀ x ∈ first, 0x20 ≤ x ∧ x ≤ 0x7e)
    (hb1 : 0x20 ≤ b) (hb2 : b ≤ 0x7e) :
    (writeBytesCount w 0 (first ++ [b])).2 = 1 ∧
    (writeBytesCount w 0 (first ++ [b])).1.column_pos = 1 ∧
    (writeBytesCount w 0 (first ++ [b])).1.buffer (BUFFER_HEIGHT - 1) 0 =
      { ascii_char := b, color_code := w.color_code } ∧
    (writeBytesCount w 0 (first ++ [b])).1 = writeBytes w (first ++ [b]) := by
  obtain ⟨hk, hcol, hcc⟩ :=
    writeBytesCount_printable_no_scroll first w 0 hall (by omega)
  have hcol80 : (writeBytesCount w 0 first).1.column_pos = BUFFER_WIDTH := by
    rw [hcol, hw, hlen]
    omega
  have happ : writeBytesCount w 0 (first ++ [b]) =
      write_byte_count (writeBytesCount w 0 first).1
        (writeBytesCount w 0 first).2 b := by
    unfold writeBytesCount
    rw [List.foldl_append]
    rfl
  have hstep : write_byte_count (writeBytesCount w 0 first).1
      (writeBytesCount w 0 first).2 b =
      ({ new_line (writeBytesCount w 0 first).1 with
         buffer :=
           bufWrite (new_line (writeBytesCount w 0 first).1).buffer
             (BUFFER_HEIGHT - 1)
             (new_line (writeBytesCount w 0 first).1).column_pos
             { ascii_char := b,
               color_code :=
                 (new_line (writeBytesCount w 0 first).1).color_code },
         column_pos :=
           (new_line (writeBytesCount w 0 first).1).column_pos + 1 },
       (writeBytesCount w 0 first).2 + 1) := by
    unfold write_byte_count
    rw [if_neg (by omega), if_neg (by omega), if_pos (by omega)]
  refine ⟨?_, ?_, ?_, writeBytesCount_fst (first ++ [b]) w 0⟩
  · rw [happ, hstep]
    show (writeBytesCount w 0 first).2 + 1 = 1
    omega
  · rw [happ, hstep]
    show (new_line (writeBytesCount w 0 first).1).column_pos + 1 = 1
    rw [new_line_column]
  · rw [happ, hstep]
    show bufWrite (new_line (writeBytesCount w 0 first).1).buffer
        (BUFFER_HEIGHT - 1)
        (new_line (writeBytesCount w 0 first).1).column_pos
        { ascii_char := b,
          color_code := (new_line (writeBytesCount w 0 first).1).color_code }
        (BUFFER_HEIGHT - 1) 0 = _
    rw [bufWrite_apply,
      if_pos ⟨rfl, (new_line_column (writeBytesCount w 0 first).1).symm⟩,
      new_line_color, hcc]

/-- Witness for claim C3: eighty `A` bytes then one `B` byte from the
initial writer. -/
theorem write_width_succ_bytes_single_scroll_witness :
    (demoWriter.column_pos = 0 ∧
     (List.replicate BUFFER_WIDTH 0x41).length = BUFFER_WIDTH ∧
     (∀ x ∈ List.replicate BUFFER_WIDTH 0x41, 0x20 ≤ x ∧ x ≤ 0x7e) ∧
     0x20 ≤ 0x42 ∧ (0x42 : Nat) ≤ 0x7e) ∧
    ((writeBytesCount demoWriter 0
        (List.replicate BUFFER_WIDTH 0x41 ++ [0x42])).2 = 1 ∧
     (writeBytesCount demoWriter 0
        (List.replicate BUFFER_WIDTH 0x41 ++ [0x42])).1.column_pos = 1 ∧
     (writeBytesCount demoWriter 0
        (List.replicate BUFFER_WIDTH 0x41 ++ [0x42])).1.buffer
          (BUFFER_HEIGHT - 1) 0 =
        { ascii_char := 0x42, color_code := demoWriter.color_code } ∧
     (writeBytesCount demoWriter 0
        (List.replicate BUFFER_WIDTH 0x41 ++ [0x42])).1 =
       writeBytes demoWriter (List.replicate BUFFER_WIDTH 0x41 ++ [0x42])) :=
  ⟨⟨by decide, by decide, by decide, by decide, by decide⟩,
   write_width_succ_bytes_single_scroll demoWriter
     (List.replicate BUFFER_WIDTH 0x41) 0x42 (by decide) (by decide)
     (by decide) (by decide) (by decide)⟩

/-- Claim C5: if `column_pos ≤ BUFFER_WIDTH` holds before an operation,
it still holds after `write_byte` (any byte), `write_string` (any byte
sequence), `indent`, `new_line`, and `set_color`. -/
theorem column_pos_invariant (w : Writer)
    (h : w.column_pos ≤ BUFFER_WIDTH) :
    (∀ b, (write_byte w b).column_pos ≤ BUFFER_WIDTH) ∧
    (∀ s, (write_string w s).column_pos ≤ BUFFER_WIDTH) ∧
    (indent w).column_pos ≤ BUFFER_WIDTH ∧
    (new_line w).column_pos ≤ BUFFER_WIDTH ∧
    (∀ a, (set_color w a).column_pos ≤ BUFFER_WIDTH) :=
  ⟨fun b => write_byte_column_le w b,
   fun s => write_string_column_le s w h,
   le_trans (indent_column_le w) (by unfold BUFFER_WIDTH; omega),
   by rw [new_line_column]; unfold BUFFER_WIDTH; omega,
   fun _ => h⟩

/-- Witness for claim C5 at the initial writer. -/
theorem column_pos_invariant_witness :
    demoWriter.column_pos ≤ BUFFER_WIDTH ∧
    ((∀ b, (write_byte demoWriter b).column_pos ≤ BUFFER_WIDTH) ∧
     (∀ s, (write_string demoWriter s).column_pos ≤ BUFFER_WIDTH) ∧
     (indent demoWriter).column_pos ≤ BUFFER_WIDTH ∧
     (new_line demoWriter).column_pos ≤ BUFFER_WIDTH ∧
     (∀ a, (set_color demoWriter a).column_pos ≤ BUFFER_WIDTH)) :=
  ⟨by decide, column_pos_invariant demoWriter (by decide)⟩

theorem write_string_eq_map_substituted (s : List Nat) :
    ∀ w : Writer, write_string w s = writeBytes w (s.map substituted) := by
  induction s with
  | nil => intro w; rfl
  | cons b rest ih =>
    intro w
    have hstep : write_string w (b :: rest) =
        write_string
          (if (0x20 ≤ b ∧ b ≤ 0x7e) ∨ b = 10 ∨ b = 9 then write_byte w b
           else write_byte w 0xfe)
          rest := rfl
    have hbyte :
        (if (0x20 ≤ b ∧ b ≤ 0x7e) ∨ b = 10 ∨ b = 9 then write_byte w b
         else write_byte w 0xfe) = write_byte w (substituted b) := by
      unfold substituted
      split_ifs <;> rfl
    have hrhs : writeBytes w ((b :: rest).map substituted) =
        writeBytes (write_byte w (substituted b)) (rest.map substituted) :=
      rfl
    rw [hstep, hbyte, hrhs, ih]

/-- Claim C6: `write_string` dispatches printable-ASCII, newline and tab
bytes unchanged to `write_byte` and substitutes the placeholder byte `0xfe`
for every other byte; in particular the non-ASCII byte `0xc3` is stored as
`0xfe` (and nothing fails: the write is a plain cell store). -/
theorem write_string_placeholder_dispatch (w : Writer) (s : List Nat)
    (hc : w.column_pos < BUFFER_WIDTH) :
    write_string w s = writeBytes w (s.map substituted) ∧
    substituted 0xc3 = 0xfe ∧
    (write_string w [0xc3]).buffer (BUFFER_HEIGHT - 1) w.column_pos =
      { ascii_char := 0xfe, color_code := w.color_code } := by
  refine ⟨write_string_eq_map_substituted s w, by decide, ?_⟩
  have h1 : write_string w [0xc3] = write_byte w 0xfe := by
    show (if (0x20 ≤ 0xc3 ∧ (0xc3 : Nat) ≤ 0x7e) ∨ (0xc3 : Nat) = 10 ∨
        (0xc3 : Nat) = 9 then write_byte w 0xc3 else write_byte w 0xfe) =
      write_byte w 0xfe
    rw [if_neg (by decide)]
  rw [h1]
  exact (write_byte_store w 0xfe (by decide) (by decide) hc).1

/-- Witness for claim C6 at the initial writer with the byte sequence
`[0x48, 0x00]`. -/
theorem write_string_placeholder_dispatch_witness :
    demoWriter.column_pos < BUFFER_WIDTH ∧
    (write_string demoWriter [0x48, 0x00] =
        writeBytes demoWriter ([0x48, 0x00].map substituted) ∧
      substituted 0xc3 = 0xfe ∧
      (write_string demoWriter [0xc3]).buffer (BUFFER_HEIGHT - 1)
          demoWriter.column_pos =
        { ascii_char := 0xfe, color_code := demoWriter.color_code }) :=
  ⟨by decide,
   write_string_placeholder_dispatch demoWriter [0x48, 0x00] (by decide)⟩

/-- Claim C8: run sequentially, `print_panic` leaves the writer's attribute
exactly as before the call, and the text itself is written as a
`write_string` performed under the fixed error attribute, light-red on
black, which encodes to `0x0c`. -/
theorem print_panic_error_color_and_restore (w : Writer) (s : List Nat) :
    (print_panic w s).color_code = w.color_code ∧
    (print_panic w s).buffer =
      (write_string (set_color w (ColorCode.new Color.LightRed Color.Black))
        s).buffer ∧
    ColorCode.new Color.LightRed Color.Black = 0x0c :=
  ⟨rfl, rfl, by decide⟩

/-- Claim C9: `set_color` changes only the current attribute — the grid and
the column are untouched — and subsequent cell writes and blank fills
(`clear_row`, the last row after `new_line`) all use the new attribute. -/
theorem set_color_frame_effect (w : Writer) (a : ColorCode) :
    (set_color w a).buffer = w.buffer ∧
    (set_color w a).column_pos = w.column_pos ∧
    (set_color w a).color_code = a ∧
    (∀ b, b ≠ 10 → b ≠ 9 → w.column_pos < BUFFER_WIDTH →
      (write_byte (set_color w a) b).buffer (BUFFER_HEIGHT - 1)
          w.column_pos =
        { ascii_char := b, color_code := a }) ∧
    (∀ row c, c < BUFFER_WIDTH →
      (clear_row (set_color w a) row).buffer row c =
        { ascii_char := 0x20, color_code := a }) ∧
    (∀ c, c < BUFFER_WIDTH →
      (new_line (set_color w a)).buffer (BUFFER_HEIGHT - 1) c =
        { ascii_char := 0x20, color_code := a }) := by
  refine ⟨rfl, rfl, rfl, ?_, ?_, ?_⟩
  · intro b h10 h9 hcw
    exact (write_byte_store (set_color w a) b h10 h9 hcw).1
  · intro row c hc
    rw [clear_row_buffer, if_pos ⟨rfl, hc⟩]
    rfl
  · intro c hc
    rw [new_line_buffer _ _ c hc, if_pos rfl]
    rfl

/-- Witness for claim C9: switching the initial writer to attribute `0x0c`,
then writing byte `A`, clearing row 2, and scrolling. -/
theorem set_color_frame_effect_witness :
    ((set_color demoWriter 0x0c).buffer = demoWriter.buffer ∧
     (set_color demoWriter 0x0c).column_pos = demoWriter.column_pos ∧
     (set_color demoWriter 0x0c).color_code = 0x0c) ∧
    ((0x41 : Nat) ≠ 10 ∧ (0x41 : Nat) ≠ 9 ∧
      demoWriter.column_pos < BUFFER_WIDTH ∧
      (write_byte (set_color demoWriter 0x0c) 0x41).buffer
          (BUFFER_HEIGHT - 1) demoWriter.column_pos =
        { ascii_char := 0x41, color_code := 0x0c }) ∧
    (3 < BUFFER_WIDTH ∧
      (clear_row (set_color demoWriter 0x0c) 2).buffer 2 3 =
        { ascii_char := 0x20, color_code := 0x0c }) ∧
    (9 < BUFFER_WIDTH ∧
      (new_line (set_color demoWriter 0x0c)).buffer (BUFFER_HEIGHT - 1) 9 =
        { ascii_char := 0x20, color_code := 0x0c }) :=
  ⟨⟨(set_color_frame_effect demoWriter 0x0c).1,
    (set_color_frame_effect demoWriter 0x0c).2.1,
    (set_color_frame_effect demoWriter 0x0c).2.2.1⟩,
   ⟨by decide, by decide, by decide,
    (set_color_frame_effect demoWriter 0x0c).2.2.2.1 0x41 (by decide)
      (by decide) (by decide)⟩,
   ⟨by decide,
    (set_color_frame_effect demoWriter 0x0c).2.2.2.2.1 2 3 (by decide)⟩,
   ⟨by decide,
    (set_color_frame_effect demoWriter 0x0c).2.2.2.2.2 9 (by decide)⟩⟩

/-- Claim C10: the `write_char` implementation hands the truncated low byte
of the char straight to `write_byte` with no printable-range filtering; for
the char `é` (U+00E9) the raw byte `0xe9` — outside the printable range,
not newline or tab, and different from the placeholder `0xfe` — ends up in
the grid. -/
theorem write_char_no_filtering :
    (∀ (w : Writer) (c : Char),
      write_char w c = write_byte w (c.toNat % 256)) ∧
    (write_char demoWriter (Char.ofNat 0xe9)).buffer (BUFFER_HEIGHT - 1) 0 =
      { ascii_char := 0xe9, color_code := demoWriter.color_code } ∧
    ¬ ((0x20 ≤ 0xe9 ∧ (0xe9 : Nat) ≤ 0x7e) ∨ (0xe9 : Nat) = 10 ∨
        (0xe9 : Nat) = 9) ∧
    (0xe9 : Nat) ≠ 0xfe := by
  refine ⟨fun w c => rfl, ?_, by decide, by decide⟩
  have h2 : write_char demoWriter (Char.ofNat 0xe9) =
      write_byte demoWriter 0xe9 := by
    unfold write_char
    have h : (Char.ofNat 0xe9).toNat % 256 = 0xe9 := by decide
    rw [h]
  rw [h2]
  exact (write_byte_store demoWriter 0xe9 (by decide) (by decide)
    (by decide)).1

/-- Witness for claim C8 at the initial writer with the byte sequence
`hi`. -/
theorem print_panic_error_color_and_restore_witness :
    (print_panic demoWriter [0x68, 0x69]).color_code =
      demoWriter.color_code ∧
    (print_panic demoWriter [0x68, 0x69]).buffer =
      (write_string
        (set_color demoWriter (ColorCode.new Color.LightRed Color.Black))
        [0x68, 0x69]).buffer ∧
    ColorCode.new Color.LightRed Color.Black = 0x0c :=
  print_panic_error_color_and_restore demoWriter [0x68, 0x69]

/-- Witness for claim C10 at the chars U+0001 and U+00E9. -/
theorem write_char_no_filtering_witness :
    write_char demoWriter (Char.ofNat 0x01) =
      write_byte demoWriter ((Char.ofNat 0x01).toNat % 256) ∧
    (write_char demoWriter (Char.ofNat 0xe9)).buffer (BUFFER_HEIGHT - 1) 0 =
      { ascii_char := 0xe9, color_code := demoWriter.color_code } :=
  ⟨write_char_no_filtering.1 demoWriter (Char.ofNat 0x01),
   write_char_no_filtering.2.1⟩

end VgaBuffer
